import Mathlib

/-!
Verification of the lambda-complex runtime control plane against its
natural-language specification.

The definitions below are shallow embeddings of the JavaScript sources:

* lib/lambdaFunctions/coordinator/common.js
  (sumOfInvocationCounts, getInvocationCounts, splitInvocationCounts)
* lib/lambdaFunctions/coordinator/index.js (the coordinator handler)
* lib/shared/utilities.js (retry, retryLimit)
* the worker wrapper template, which is not among the provided sources and is
  therefore modelled from the specification where needed.

JavaScript numbers appearing as invocation counts, queue depths and
generations are embedded as Nat; every place where JavaScript subtraction
could go negative is either guarded by the source itself (Math.max(0, ...))
or noted in a comment.  Asynchronous callback code is embedded as pure
functions over explicit outcome values, and the mutable JS heap, where a
claim is about mutation, as an explicit store of cells addressed by index.
-/

-- ---------------------------------------------------------------------------
-- Invocation counts and the plan splitter (coordinator/common.js).
-- ---------------------------------------------------------------------------

/-- An invocation count object: JS form is an object with a name and a count. -/
abbrev InvocationCount := String × Nat

/-- A split plan, mirroring the return value of splitInvocationCounts:
an object with a localInvoker array and an otherInvoker array of arrays. -/
structure Split where
  localInvoker : List InvocationCount
  otherInvoker : List (List InvocationCount)
  deriving DecidableEq, Repr

/-- Embeds exports.sumOfInvocationCounts: a lodash reduce with + over the
count fields, starting from 0, which is a left fold. -/
def sumOfInvocationCounts (invocationCounts : List InvocationCount) : Nat :=
  invocationCounts.foldl (fun sum invocationCount => sum + invocationCount.2) 0

/-- The component types from _constants.js that matter here. -/
inductive ComponentType where
  | eventFromMessage
  | eventFromInvocation
  | internal
  deriving DecidableEq, Repr

/-- One entry of status.components as built by determineApplicationStatus:
concurrency and queuedMessageCount are null (none) when the corresponding
queue measurement failed. -/
structure ComponentStatus where
  name : String
  type : ComponentType
  concurrency : Option Nat
  maxConcurrency : Nat
  queuedMessageCount : Option Nat
  deriving DecidableEq, Repr

/-- Math.ceil of a / b for natural numbers and b at least 1, as produced by
Math.ceil(count / coordinatorConcurrency) in getInvocationCounts. -/
def ceilDiv (a b : Nat) : Nat := (a + b - 1) / b

/-- Embeds exports.getInvocationCounts from coordinator/common.js.  The JS
filters status.components down to eventFromMessage components whose
queuedMessageCount and concurrency are both numbers, then maps each to a
name/count pair with
count = Math.ceil(min(queuedMessageCount, max(0, maxConcurrency - concurrency))
/ coordinatorConcurrency).  The filter-then-map is embedded as a filterMap
whose match arms are exactly the filter conditions; Math.max(0, x - y) over
numbers is truncated Nat subtraction. -/
def getInvocationCounts (coordinatorConcurrency : Nat)
    (components : List ComponentStatus) : List InvocationCount :=
  components.filterMap fun c =>
    match c.type, c.queuedMessageCount, c.concurrency with
    | ComponentType.eventFromMessage, some queued, some concurrency =>
        some (c.name,
          ceilDiv (min queued (c.maxConcurrency - concurrency))
            coordinatorConcurrency)
    | _, _, _ => none

/-- The inner while loop of splitInvocationCounts.  The JS walks the working
array from its tail (lodash last plus Array.prototype.pop), so the embedding
receives the working array reversed: the list head is the JS array tail.
Given the remaining space in the invoker being filled, it returns the
remaining working array (still reversed) and the pulled counts in pull order.
When an entry is larger than the remaining space the entry is reduced in
place and a copy holding exactly the remaining space is pulled, after which
the space is zero and the loop exits; the JS branch removing an entry
emptied by that subtraction is unreachable because the entry count strictly
exceeds the space.  Otherwise the whole entry is pulled.  The JS recomputes
spaceLeftInInvoker as maxInvocationCount minus the sum of pulled counts,
which is the previous space minus the count just pulled. -/
def pullCounts (space : Nat) :
    List InvocationCount → List InvocationCount × List InvocationCount
  | [] => ([], [])
  | invocationCount :: rest =>
    if space = 0 then (invocationCount :: rest, [])
    else if invocationCount.2 > space then
      ((invocationCount.1, invocationCount.2 - space) :: rest,
        [(invocationCount.1, space)])
    else
      let r := pullCounts (space - invocationCount.2) rest
      (r.1, invocationCount :: r.2)

/-- The do/while loop of splitInvocationCounts.  Each pass pulls one bin of
counts for another invoker and appends it to the bins accumulated so far;
the loop repeats while the remaining total exceeds maxInvocationCount and
fewer than maxInvocationCount - 1 bins have been accumulated.  The fuel
argument only bounds recursion; splitInvocationCounts passes
maxInvocationCount + 1, which exceeds the largest possible number of passes
because each pass grows the bin list and the loop guard caps its length. -/
def pullCountsLoop (maxInvocationCount : Nat) :
    Nat → List InvocationCount → List (List InvocationCount) →
      List InvocationCount × List (List InvocationCount)
  | 0, invocationCounts, bins => (invocationCounts, bins)
  | fuel + 1, invocationCounts, bins =>
    let p := pullCounts maxInvocationCount invocationCounts
    let bins1 := bins ++ [p.2]
    if sumOfInvocationCounts p.1 > maxInvocationCount ∧
        bins1.length < maxInvocationCount - 1 then
      pullCountsLoop maxInvocationCount fuel p.1 bins1
    else
      (p.1, bins1)

/-- Embeds exports.splitInvocationCounts from coordinator/common.js for a
given config.coordinator.maxInvocationCount.  If the total fits in one
invoker everything is local; otherwise bins of exactly maxInvocationCount
are pulled for other invokers (the working array is deep-cloned first, which
the pure embedding reflects by leaving the argument untouched), and the
remainder is run locally when it is at most maxInvocationCount minus the
number of bins, else pushed as one last bin.  The working array is walked
from its tail, hence the reversals at the boundary.  Both subtractions are
on the JS side guarded to the same values as truncated Nat subtraction:
the loop guard keeps the bin count below maxInvocationCount. -/
def splitInvocationCounts (maxInvocationCount : Nat)
    (invocationCounts : List InvocationCount) : Split :=
  if sumOfInvocationCounts invocationCounts ≤ maxInvocationCount then
    { localInvoker := invocationCounts, otherInvoker := [] }
  else
    let r := pullCountsLoop maxInvocationCount (maxInvocationCount + 1)
      invocationCounts.reverse []
    if sumOfInvocationCounts r.1 ≤ maxInvocationCount - r.2.length then
      { localInvoker := r.1.reverse, otherInvoker := r.2 }
    else
      { localInvoker := [], otherInvoker := r.2 ++ [r.1.reverse] }

/-- Total count carried by entries with a given name, used to state that the
splitter conserves the work assigned to each component. -/
def countForName (name : String) (invocationCounts : List InvocationCount) : Nat :=
  (invocationCounts.map (fun e => if e.1 = name then e.2 else 0)).sum

-- ---------------------------------------------------------------------------
-- The retry harness (lib/shared/utilities.js, exports.retry).
-- ---------------------------------------------------------------------------

/-- Embeds exports.retryLimit from lib/shared/utilities.js. -/
def retryLimit : Nat := 3

/-- Embeds the runFn loop inside exports.retry.  The asynchronous operation
is embedded as a function from the attempt number (1-based, matching the
incremented attempts counter) to the outcome that attempt's callback
delivers.  The second argument is the number of attempts already made and
the third the number of further reruns still permitted, which is
retryLimit - attempts - 1 in the JS: when no rerun is permitted the outcome
of the final attempt is returned verbatim, exactly as the JS returns the
last callback arguments once attempts has reached retryLimit. -/
def retryRun (fn : Nat → Except E A) : Nat → Nat → Except E A
  | attempts, 0 => fn (attempts + 1)
  | attempts, rerunsLeft + 1 =>
    match fn (attempts + 1) with
    | Except.ok v => Except.ok v
    | Except.error _ => retryRun fn (attempts + 1) rerunsLeft

/-- Embeds exports.retry: start with zero attempts made and retryLimit - 1
reruns permitted after the first attempt. -/
def retry (fn : Nat → Except E A) : Except E A :=
  retryRun fn 0 (retryLimit - 1)

-- ---------------------------------------------------------------------------
-- The coordinator handler (lib/lambdaFunctions/coordinator/index.js).
-- ---------------------------------------------------------------------------

/-- The steps of the async.series pipeline in the coordinator handler, in
source order, preceded by the ARN map load. -/
inductive Step where
  | loadArnMap
  | increment
  | status
  | redundancy
  | dispatch
  | sleep
  | decrement
  deriving DecidableEq, Repr

/-- Outcomes of the underlying asynchronous operations the coordinator
handler performs, one per failable callback.  A none means the operation
called back without an error.  The sleep step (common.ensureInterval) always
calls back without arguments and so has no entry here.  The status entry is
the error determineApplicationStatus would pass on; its own fan-out logs
measurement failures and calls back cleanly, but the handler code still
checks and forwards an error from that callback, which the embedding keeps. -/
structure CoordinatorOutcomes (E : Type) where
  loadError : Option E
  incrementError : Option E
  statusError : Option E
  redundancyError : Option E
  dispatchError : Option E
  decrementError : Option E
  invokeError : Option E
  uploadError : Option E
  deriving DecidableEq, Repr

/-- Embeds async.series: run the listed steps in order, stopping at the
first step whose outcome is an error; returns the executed steps and the
first error, which async.series hands to its final callback. -/
def runSeries : List (Step × Option E) → List Step × Option E
  | [] => ([], none)
  | (step, none) :: rest =>
    let r := runSeries rest
    (step :: r.1, r.2)
  | (step, some e) :: _ => ([step], some e)

/-- The async.series task list of the coordinator handler from the increment
step onward, paired with the outcome each task's underlying operation
delivers. -/
def seriesTasks (o : CoordinatorOutcomes E) : List (Step × Option E) :=
  [(Step.increment, o.incrementError),
   (Step.status, o.statusError),
   (Step.redundancy, o.redundancyError),
   (Step.dispatch, o.dispatchError),
   (Step.sleep, none),
   (Step.decrement, o.decrementError)]

/-- The generation the handler works with: the incoming event's generation
defaulted to 0 when missing (event.generation || 0 in the JS, so an absent
and a zero generation coincide) and then incremented. -/
def processedGeneration (incoming : Option Nat) : Nat :=
  incoming.getD 0 + 1

/-- The generation processed by the k-th coordinator in a self-chain that
starts from an event without a generation: each instance passes its own
processed generation on to its successor. -/
def observedGeneration : Nat → Nat
  | 0 => processedGeneration none
  | k + 1 => observedGeneration k + 1

/-- Everything observable about one run of the coordinator handler that the
claims refer to: which pipeline steps ran, whether the chain invocation of
the next coordinator was attempted and with which generation on its event,
whether the confirmation file upload was performed, and the error handed to
context.done. -/
structure CoordinatorTrace (E : Type) where
  executed : List Step
  chainAttempted : Bool
  chainedGeneration : Option Nat
  confirmationUploaded : Bool
  doneError : Option E
  deriving DecidableEq, Repr

/-- Embeds exports.handler from lib/lambdaFunctions/coordinator/index.js.
The handler increments event.generation up front, then runs an async.series
whose first task loads the ARN map: on a load failure it logs, calls
context.done with the error and returns without invoking the series
callback, so nothing else runs and no chain is attempted.  Any later task
error short-circuits async.series to the final callback, which logs it and
always invokes the next coordinator with the already-incremented event.
The confirmation file is uploaded exactly when there was no series error,
no chain invocation error, and the processed generation is not above 1;
otherwise context.done receives the series error if any, else the chain
invocation error. -/
def handler (incoming : Option Nat) (o : CoordinatorOutcomes E) :
    CoordinatorTrace E :=
  let generation := processedGeneration incoming
  match o.loadError with
  | some e =>
    { executed := [Step.loadArnMap]
      chainAttempted := false
      chainedGeneration := none
      confirmationUploaded := false
      doneError := some e }
  | none =>
    let r := runSeries (seriesTasks o)
    let seriesError := r.2
    if seriesError.isSome ∨ o.invokeError.isSome ∨ generation > 1 then
      { executed := Step.loadArnMap :: r.1
        chainAttempted := true
        chainedGeneration := some generation
        confirmationUploaded := false
        doneError := match seriesError with
          | some e => some e
          | none => o.invokeError }
    else
      { executed := Step.loadArnMap :: r.1
        chainAttempted := true
        chainedGeneration := some generation
        confirmationUploaded := true
        doneError := o.uploadError }

/-- Concrete outcome set in which only the ledger increment step fails,
used to exhibit the short-circuiting of the coordinator pipeline. -/
def incrementFailureOutcomes : CoordinatorOutcomes String :=
  { loadError := none
    incrementError := some "increment failed"
    statusError := none
    redundancyError := none
    dispatchError := none
    decrementError := none
    invokeError := none
    uploadError := none }

-- ---------------------------------------------------------------------------
-- The worker wrapper's guarded lifecycle context.
-- ---------------------------------------------------------------------------

/-- The three completion channels of a Lambda lifecycle context. -/
inductive LifecycleMode where
  | done
  | fail
  | succeed
  deriving DecidableEq, Repr

/-- Modelled from the spec: the worker wrapper template
(lib/build/template/index.js) is not among the provided sources.  A call on
one of the wrapped context's completion channels records the channel (mode)
and the arguments passed, the arguments kept abstract as a value of an
arbitrary type. -/
structure LifecycleCall (A : Type) where
  mode : LifecycleMode
  args : A
  deriving DecidableEq, Repr

/-- Modelled from the spec: the per-invocation state of the wrapped
lifecycle context produced by wrapContext.  The complete flag guards the
forwarders; finalized is the log of finalization runs, each carrying the
mode and arguments forwarded to it. -/
structure WrapperState (A : Type) where
  complete : Bool
  finalized : List (LifecycleCall A)
  deriving DecidableEq, Repr

/-- Modelled from the spec: the wrapper state before any completion channel
has been called. -/
def initialWrapperState : WrapperState A :=
  { complete := false, finalized := [] }

/-- Modelled from the spec: a guarded forwarder of the wrapped lifecycle
context.  On the first call it marks the context complete and runs
finalization with the call's mode and arguments; once complete, calls are
silently ignored and the state is unchanged. -/
def handleLifecycleCall (s : WrapperState A) (c : LifecycleCall A) :
    WrapperState A :=
  if s.complete then s
  else { complete := true, finalized := s.finalized ++ [c] }

/-- Modelled from the spec: the effect of an arbitrary sequence of calls to
the wrapped context's completion channels, applied in order. -/
def runLifecycleCalls (s : WrapperState A) (calls : List (LifecycleCall A)) :
    WrapperState A :=
  calls.foldl handleLifecycleCall s

-- ---------------------------------------------------------------------------
-- The routing engine.
-- ---------------------------------------------------------------------------

/-- Modelled from the spec: a raw entry produced by a routing expression,
before validation.  An entry is either an object carrying a target component
name and a payload, or something malformed (null, a non-object, an object
without the needed shape). -/
inductive RawRouteEntry (A : Type) where
  | entry (target : String) (payload : A)
  | malformed
  deriving DecidableEq, Repr

/-- Modelled from the spec: the value a routing expression returns, which
may be a single entry, a list of entries, or nothing at all. -/
inductive RawRouteValue (A : Type) where
  | one (e : RawRouteEntry A)
  | many (es : List (RawRouteEntry A))
  | nothing
  deriving DecidableEq, Repr

/-- Modelled from the spec: a routing rule is none, a single component name,
a list of component names, or an expression evaluated with the error and the
result. -/
inductive Routing (E A : Type) where
  | noRoute
  | single (name : String)
  | nameList (names : List String)
  | expression (f : Option E → A → RawRouteValue A)

/-- Modelled from the spec: normalize the raw return of a routing expression
to a list of raw entries; a single object stands for the one-element list
and a missing return for the empty list. -/
def rawRouteList : RawRouteValue A → List (RawRouteEntry A)
  | RawRouteValue.one e => [e]
  | RawRouteValue.many es => es
  | RawRouteValue.nothing => []

/-- Modelled from the spec: keep a raw entry only when it is a well-formed
object with a non-empty target string, yielding the target/payload pair to
dispatch. -/
def validRouteEntry : RawRouteEntry A → Option (String × A)
  | RawRouteEntry.entry target payload =>
      if target = "" then none else some (target, payload)
  | RawRouteEntry.malformed => none

/-- Modelled from the spec: the routing engine's list of dispatch pairs for
a given routing rule, worker error and worker result.  No rule yields
nothing; name-based rules yield one pair per name carrying the result, but
nothing at all when the worker produced an error; an expression is always
evaluated with the error and result, and its well-formed entries are kept. -/
def routeTargets (routing : Routing E A) (error : Option E) (result : A) :
    List (String × A) :=
  match routing with
  | Routing.noRoute => []
  | Routing.single name =>
      if error.isSome then [] else [(name, result)]
  | Routing.nameList names =>
      if error.isSome then [] else names.map (fun name => (name, result))
  | Routing.expression f =>
      (rawRouteList (f error result)).filterMap validRouteEntry

-- ---------------------------------------------------------------------------
-- Store-level model of splitInvocationCounts for the mutation claim.
-- ---------------------------------------------------------------------------

/-- A store of JS invocation count objects: the address of a cell is its
index.  This level of the embedding makes the reference semantics of the
JS explicit, so that the claim that splitInvocationCounts never mutates its
argument is about something: the caller passes a list of addresses, the
function deep-clones the cells those addresses denote, and all in-place
updates land on the fresh cells. -/
abbrev CountStore := List InvocationCount

/-- Read the invocation count object at an address; all reads performed by
the embedded runs are in bounds, the default merely totalizes the function. -/
def readCount (store : CountStore) (a : Nat) : InvocationCount :=
  store.getD a ("", 0)

/-- The sum of the counts of the cells a list of addresses denotes. -/
def sumAtAddrs (store : CountStore) (addrs : List Nat) : Nat :=
  (addrs.map (fun a => (readCount store a).2)).sum

/-- Store-level version of the inner while loop of splitInvocationCounts,
operating on the addresses of the cloned cells (reversed, head = JS array
tail).  The oversized-entry branch performs the in-place update
invocationCount.count -= spaceLeftInInvoker on the addressed cell and
allocates a fresh cell for the pulled copy (lodash clone); the other branch
moves the address itself into the pulled bin.  Returns the possibly grown
and updated store, the remaining addresses and the pulled bin's addresses. -/
def pullCountsStore (space : Nat) :
    CountStore → List Nat → CountStore × List Nat × List Nat
  | store, [] => (store, [], [])
  | store, a :: rest =>
    if space = 0 then (store, a :: rest, [])
    else
      let e := readCount store a
      if e.2 > space then
        let store1 := store.set a (e.1, e.2 - space)
        (store1 ++ [(e.1, space)], a :: rest, [store1.length])
      else
        let r := pullCountsStore (space - e.2) store rest
        (r.1, r.2.1, a :: r.2.2)

/-- Store-level version of the do/while loop of splitInvocationCounts; fuel
as in pullCountsLoop. -/
def pullCountsLoopStore (maxInvocationCount : Nat) :
    Nat → CountStore → List Nat → List (List Nat) →
      CountStore × List Nat × List (List Nat)
  | 0, store, addrs, bins => (store, addrs, bins)
  | fuel + 1, store, addrs, bins =>
    let p := pullCountsStore maxInvocationCount store addrs
    let bins1 := bins ++ [p.2.2]
    if sumAtAddrs p.1 p.2.1 > maxInvocationCount ∧
        bins1.length < maxInvocationCount - 1 then
      pullCountsLoopStore maxInvocationCount fuel p.1 p.2.1 bins1
    else
      (p.1, p.2.1, bins1)

/-- Store-level splitInvocationCounts.  The caller's array is the list of
addresses; the lodash cloneDeep step appends a fresh copy of every addressed
cell to the store and rebinds the working array to the fresh addresses, so
the original cells are never touched afterwards.  Returns the final store
together with the local addresses and the bins of addresses for other
invokers. -/
def splitInvocationCountsStore (maxInvocationCount : Nat)
    (store : CountStore) (addrs : List Nat) :
    CountStore × List Nat × List (List Nat) :=
  let total := sumAtAddrs store addrs
  let cloned := store ++ addrs.map (readCount store)
  let cloneAddrs := (List.range addrs.length).map (fun i => store.length + i)
  if total ≤ maxInvocationCount then
    (cloned, cloneAddrs, [])
  else
    let r := pullCountsLoopStore maxInvocationCount (maxInvocationCount + 1)
      cloned cloneAddrs.reverse []
    if sumAtAddrs r.1 r.2.1 ≤ maxInvocationCount - r.2.2.length then
      (r.1, r.2.1.reverse, r.2.2)
    else
      (r.1, [], r.2.2 ++ [r.2.1.reverse])

/-- Concrete outcome set in which every operation succeeds, used to
instantiate coordinator theorems. -/
def cleanOutcomes : CoordinatorOutcomes String :=
  { loadError := none
    incrementError := none
    statusError := none
    redundancyError := none
    dispatchError := none
    decrementError := none
    invokeError := none
    uploadError := none }

/-- Concrete outcome set in which only the dispatch step fails, used to
instantiate the pipeline error-propagation theorem at a mid-pipeline
failure. -/
def dispatchFailureOutcomes : CoordinatorOutcomes String :=
  { loadError := none
    incrementError := none
    statusError := none
    redundancyError := none
    dispatchError := some "dispatch failed"
    decrementError := none
    invokeError := none
    uploadError := none }

-- ---------------------------------------------------------------------------
-- Helper lemmas about sums of invocation counts.
-- ---------------------------------------------------------------------------

theorem sumOfInvocationCounts_foldl (l : List InvocationCount) (n : Nat) :
    l.foldl (fun sum e => sum + e.2) n = n + (l.map Prod.snd).sum := by
  induction l generalizing n with
  | nil => simp
  | cons e t ih => simp [List.foldl_cons, ih]; omega

theorem sumOfInvocationCounts_eq (l : List InvocationCount) :
    sumOfInvocationCounts l = (l.map Prod.snd).sum := by
  simpa [sumOfInvocationCounts] using sumOfInvocationCounts_foldl l 0

theorem sumOfInvocationCounts_cons (e : InvocationCount) (t : List InvocationCount) :
    sumOfInvocationCounts (e :: t) = e.2 + sumOfInvocationCounts t := by
  simp [sumOfInvocationCounts_eq]

theorem sumOfInvocationCounts_reverse (l : List InvocationCount) :
    sumOfInvocationCounts l.reverse = sumOfInvocationCounts l := by
  simp [sumOfInvocationCounts_eq, List.sum_reverse]

theorem countForName_cons (name : String) (e : InvocationCount)
    (t : List InvocationCount) :
    countForName name (e :: t) =
      (if e.1 = name then e.2 else 0) + countForName name t := by
  simp [countForName]

theorem countForName_reverse (name : String) (l : List InvocationCount) :
    countForName name l.reverse = countForName name l := by
  simp [countForName, List.sum_reverse]

theorem countForName_nil (name : String) : countForName name [] = 0 := rfl

-- ---------------------------------------------------------------------------
-- Helper lemmas about the inner pull loop.
-- ---------------------------------------------------------------------------

theorem pullCounts_pulled_sum (space : Nat) (l : List InvocationCount) :
    sumOfInvocationCounts (pullCounts space l).2 =
      min space (sumOfInvocationCounts l) := by
  induction l generalizing space with
  | nil => simp [pullCounts, sumOfInvocationCounts]
  | cons e t ih =>
    by_cases h0 : space = 0
    · simp [pullCounts, h0, sumOfInvocationCounts]
    · by_cases hbig : e.2 > space
      · simp only [pullCounts, if_neg h0, if_pos hbig]
        rw [sumOfInvocationCounts_cons, sumOfInvocationCounts_cons]
        simp [sumOfInvocationCounts]
        omega
      · simp only [pullCounts, if_neg h0, if_neg hbig]
        rw [sumOfInvocationCounts_cons, sumOfInvocationCounts_cons, ih]
        omega

theorem pullCounts_conserve (space : Nat) (l : List InvocationCount)
    (name : String) :
    countForName name (pullCounts space l).1 +
      countForName name (pullCounts space l).2 = countForName name l := by
  induction l generalizing space with
  | nil => simp [pullCounts, countForName]
  | cons e t ih =>
    by_cases h0 : space = 0
    · simp [pullCounts, h0, countForName]
    · by_cases hbig : e.2 > space
      · simp only [pullCounts, if_neg h0, if_pos hbig]
        rw [countForName_cons, countForName_cons, countForName_cons]
        simp [countForName]
        by_cases hn : e.1 = name
        all_goals simp [hn]
        all_goals omega
      · simp only [pullCounts, if_neg h0, if_neg hbig]
        rw [countForName_cons, countForName_cons]
        have := ih (space - e.2)
        omega

-- ---------------------------------------------------------------------------
-- Helper lemmas about the outer bin loop.
-- ---------------------------------------------------------------------------

theorem pullCountsLoop_bins_sum (maxInvocationCount : Nat) (fuel : Nat)
    (counts : List InvocationCount) (bins : List (List InvocationCount))
    (hc : sumOfInvocationCounts counts > maxInvocationCount)
    (hb : ∀ b ∈ bins, sumOfInvocationCounts b = maxInvocationCount) :
    ∀ b ∈ (pullCountsLoop maxInvocationCount fuel counts bins).2,
      sumOfInvocationCounts b = maxInvocationCount := by
  induction fuel generalizing counts bins with
  | zero => simpa [pullCountsLoop] using hb
  | succ fuel ih =>
    have hpull : sumOfInvocationCounts (pullCounts maxInvocationCount counts).2 =
        maxInvocationCount := by
      rw [pullCounts_pulled_sum]
      omega
    have hb1 : ∀ b ∈ bins ++ [(pullCounts maxInvocationCount counts).2],
        sumOfInvocationCounts b = maxInvocationCount := by
      intro b hbmem
      rcases List.mem_append.mp hbmem with h | h
      · exact hb b h
      · rcases List.mem_singleton.mp h with rfl
        exact hpull
    simp only [pullCountsLoop]
    split
    · next hcond => exact ih _ _ hcond.1 hb1
    · exact hb1

theorem pullCountsLoop_conserve (maxInvocationCount : Nat) (fuel : Nat)
    (counts : List InvocationCount) (bins : List (List InvocationCount))
    (name : String) :
    countForName name (pullCountsLoop maxInvocationCount fuel counts bins).1 +
      (((pullCountsLoop maxInvocationCount fuel counts bins).2).map
        (countForName name)).sum =
      countForName name counts + (bins.map (countForName name)).sum := by
  induction fuel generalizing counts bins with
  | zero => simp [pullCountsLoop]
  | succ fuel ih =>
    have hstep := pullCounts_conserve maxInvocationCount counts name
    simp only [pullCountsLoop]
    split
    · next hcond =>
      rw [ih]
      simp only [List.map_append, List.sum_append, List.map_cons, List.map_nil,
        List.sum_cons, List.sum_nil]
      omega
    · simp only [List.map_append, List.sum_append, List.map_cons, List.map_nil,
        List.sum_cons, List.sum_nil]
      omega

theorem ceilDiv_le_self (x cc : Nat) (hcc : 1 ≤ cc) : ceilDiv x cc ≤ x := by
  rw [ceilDiv, Nat.div_le_iff_le_mul_add_pred hcc]
  have hx : x ≤ cc * x := Nat.le_mul_of_pos_left x hcc
  omega

-- ---------------------------------------------------------------------------
-- Claim C2: the S4 plan-splitting scenario.
-- ---------------------------------------------------------------------------

/-- C2 counterexample.  The specified S4 scenario output is wrong: on input
counts a:12, b:1, c:2 with maxInvocationCount 6, splitInvocationCounts does
not return remote bins a:6 and a:6 with local b:1, c:2, because the JS pulls
entries from the tail of the working array. -/
theorem s4_scenario_counterexample :
    splitInvocationCounts 6 [("a", 12), ("b", 1), ("c", 2)] ≠
      { localInvoker := [("b", 1), ("c", 2)],
        otherInvoker := [[("a", 6)], [("a", 6)]] } := by
  decide

/-- C2 amended.  On input counts a:12, b:1, c:2 with maxInvocationCount 6
the splitter pulls from the tail of the list, producing the remote bins
c:2, b:1, a:3 and a:6, and the local remainder a:3. -/
theorem s4_scenario_actual :
    splitInvocationCounts 6 [("a", 12), ("b", 1), ("c", 2)] =
      { localInvoker := [("a", 3)],
        otherInvoker := [[("c", 2), ("b", 1), ("a", 3)], [("a", 6)]] } := by
  decide

-- ---------------------------------------------------------------------------
-- Claim C3: splitter and invocation count invariants.
-- ---------------------------------------------------------------------------

/-- C3.  For every invocation count list and bin size B = maxInvocationCount,
the local part of the split sums to at most B and every remote bin other
than possibly the last sums to exactly B; and every count produced by
getInvocationCounts is at most the ceiling of
min(queuedMessages, max(0, maxConcurrency - concurrency)) divided by
coordinatorConcurrency, and hence at most the component's clamped headroom. -/
theorem splitter_and_invocation_count_invariants
    (B cc : Nat) (ic : List InvocationCount) (comps : List ComponentStatus)
    (hcc : 1 ≤ cc) :
    sumOfInvocationCounts (splitInvocationCounts B ic).localInvoker ≤ B ∧
    (∀ bin ∈ (splitInvocationCounts B ic).otherInvoker.dropLast,
      sumOfInvocationCounts bin = B) ∧
    (∀ e ∈ getInvocationCounts cc comps, ∃ c ∈ comps,
      c.name = e.1 ∧ c.type = ComponentType.eventFromMessage ∧
      ∃ queued concurrency,
        c.queuedMessageCount = some queued ∧
        c.concurrency = some concurrency ∧
        e.2 ≤ ceilDiv (min queued (c.maxConcurrency - concurrency)) cc ∧
        e.2 ≤ c.maxConcurrency - concurrency) := by
  refine ⟨?_, ?_, ?_⟩
  · by_cases h : sumOfInvocationCounts ic ≤ B
    · simp [splitInvocationCounts, h]
    · simp only [splitInvocationCounts, if_neg h]
      split
      · next h2 =>
        rw [sumOfInvocationCounts_reverse]
        omega
      · simp [sumOfInvocationCounts]
  · by_cases h : sumOfInvocationCounts ic ≤ B
    · simp [splitInvocationCounts, h]
    · have hbins := pullCountsLoop_bins_sum B (B + 1) ic.reverse []
        (by rw [sumOfInvocationCounts_reverse]; omega) (by simp)
      simp only [splitInvocationCounts, if_neg h]
      split
      · intro bin hbin
        exact hbins bin ((List.dropLast_sublist _).subset hbin)
      · intro bin hbin
        rw [List.dropLast_concat] at hbin
        exact hbins bin hbin
  · intro e he
    simp only [getInvocationCounts, List.mem_filterMap] at he
    obtain ⟨c, hcmem, heq⟩ := he
    refine ⟨c, hcmem, ?_⟩
    split at heq
    case _ queued concurrency htype hq hconc =>
      injection heq with heq2
      subst heq2
      refine ⟨rfl, htype, queued, concurrency, hq, hconc, Nat.le_refl _, ?_⟩
      exact Nat.le_trans
        (ceilDiv_le_self _ cc hcc)
        (Nat.min_le_right _ _)
    case _ => cases heq

/-- C3 witness: the invariants instantiated at B = 6, cc = 1 and the S4
input, with the cc hypothesis discharged. -/
theorem splitter_and_invocation_count_invariants_witness :
    1 ≤ 1 ∧
    sumOfInvocationCounts
      (splitInvocationCounts 6 [("a", 12), ("b", 1), ("c", 2)]).localInvoker ≤ 6 :=
  ⟨by decide,
    (splitter_and_invocation_count_invariants 6 1 [("a", 12), ("b", 1), ("c", 2)]
      [] (by decide)).1⟩

-- ---------------------------------------------------------------------------
-- Claim C9: the splitter conserves work per component.
-- ---------------------------------------------------------------------------

/-- C9.  For every invocation count list and every component name, the count
for that name summed over the local part and all remote bins of the plan
equals the count for that name in the input: packing neither loses nor
duplicates invocations. -/
theorem splitter_conserves_counts (B : Nat) (ic : List InvocationCount)
    (name : String) :
    countForName name (splitInvocationCounts B ic).localInvoker +
      (((splitInvocationCounts B ic).otherInvoker).map (countForName name)).sum =
      countForName name ic := by
  by_cases h : sumOfInvocationCounts ic ≤ B
  · simp [splitInvocationCounts, h]
  · have hcons := pullCountsLoop_conserve B (B + 1) ic.reverse [] name
    rw [countForName_reverse] at hcons
    simp only [List.map_nil, List.sum_nil, Nat.add_zero] at hcons
    simp only [splitInvocationCounts, if_neg h]
    split
    · rw [countForName_reverse]
      exact hcons
    · simp only [List.map_append, List.sum_append, List.map_cons, List.map_nil,
        List.sum_cons, List.sum_nil, countForName_reverse, countForName_nil]
      omega

-- ---------------------------------------------------------------------------
-- Claim C8: the retry harness.
-- ---------------------------------------------------------------------------

theorem retry_eval (fn : Nat → Except E A) :
    retry fn = match fn 1 with
      | Except.ok v => Except.ok v
      | Except.error _ =>
        match fn 2 with
        | Except.ok v => Except.ok v
        | Except.error _ => fn 3 := by
  show retryRun fn 0 2 = _
  rw [show (2 : Nat) = 1 + 1 from rfl, retryRun]
  cases h1 : fn 1 with
  | ok v => rfl
  | error e =>
    rw [show (1 : Nat) = 0 + 1 from rfl, retryRun]
    cases h2 : fn 2 with
    | ok v => rfl
    | error e2 => rw [retryRun]

/-- C8.  The retry harness consults the operation only on attempts 1 to 3,
so it is invoked at most 3 times in total; a successful attempt is
propagated immediately, with no later attempt consulted; and when all three
attempts fail the error of the third attempt is surfaced. -/
theorem retry_properties {E A : Type} (fn gn : Nat → Except E A)
    (h1 : fn 1 = gn 1) (h2 : fn 2 = gn 2) (h3 : fn 3 = gn 3) :
    retry fn = retry gn ∧
    (∀ v, fn 1 = Except.ok v → retry fn = Except.ok v) ∧
    (∀ e v, fn 1 = Except.error e → fn 2 = Except.ok v →
      retry fn = Except.ok v) ∧
    (∀ e e2 v, fn 1 = Except.error e → fn 2 = Except.error e2 →
      fn 3 = Except.ok v → retry fn = Except.ok v) ∧
    (∀ e e2 e3, fn 1 = Except.error e → fn 2 = Except.error e2 →
      fn 3 = Except.error e3 → retry fn = Except.error e3) := by
  refine ⟨?_, ?_, ?_, ?_, ?_⟩
  · rw [retry_eval fn, retry_eval gn, h1, h2, h3]
  · intro v hv
    rw [retry_eval fn, hv]
  · intro e v he hv
    rw [retry_eval fn, he, hv]
  · intro e e2 v he he2 hv
    rw [retry_eval fn, he, he2]
    exact hv
  · intro e e2 e3 he he2 he3
    rw [retry_eval fn, he, he2]
    exact he3

/-- C8 witness: an operation failing twice and succeeding on the third
attempt is retried to success. -/
theorem retry_properties_witness :
    retry (fun n => if n = 3 then (Except.ok 7 : Except String Nat)
      else Except.error "transient") = Except.ok 7 :=
  (retry_properties
      (fun n => if n = 3 then (Except.ok 7 : Except String Nat)
        else Except.error "transient")
      (fun n => if n = 3 then (Except.ok 7 : Except String Nat)
        else Except.error "transient")
      rfl rfl rfl).2.2.2.1
    "transient" "transient" 7 rfl rfl rfl

-- ---------------------------------------------------------------------------
-- Claim C4: error propagation through the coordinator pipeline.
-- ---------------------------------------------------------------------------

/-- C4 counterexample.  When the ledger increment step fails, the later
pipeline steps do not run: with only the increment failing, neither the
dispatch step nor the decrement step is executed, contradicting the claim
that every subsequent step still runs.  The chain attempt does still
happen. -/
theorem pipeline_short_circuit_counterexample :
    incrementFailureOutcomes.incrementError.isSome = true ∧
    Step.dispatch ∉ (handler (some 1) incrementFailureOutcomes).executed ∧
    Step.decrement ∉ (handler (some 1) incrementFailureOutcomes).executed ∧
    (handler (some 1) incrementFailureOutcomes).chainAttempted = true := by
  decide

/-- C4 amended.  Only a failure of the initial ResourceMap load aborts the
invocation without chaining; a failure in any step from the ledger
increment onward short-circuits the remaining series steps, but the final
callback still runs and the chaining invocation of the next coordinator is
always attempted.  The conjuncts below cover every failable step: when the
first failure is at the increment, status, redundancy, dispatch or
decrement step, exactly the steps up to and including that step ran and the
chain was still attempted.  The sleep step (common.ensureInterval) has no
failure mode, so it appears only inside the executed prefixes. -/
theorem pipeline_error_propagation {E : Type} (incoming : Option Nat)
    (o : CoordinatorOutcomes E) :
    (∀ e, o.loadError = some e →
      (handler incoming o).executed = [Step.loadArnMap] ∧
      (handler incoming o).chainAttempted = false) ∧
    (o.loadError = none → (handler incoming o).chainAttempted = true) ∧
    (o.loadError = none → o.incrementError.isSome = true →
      (handler incoming o).executed = [Step.loadArnMap, Step.increment] ∧
      (handler incoming o).chainAttempted = true) ∧
    (o.loadError = none → o.incrementError = none →
      o.statusError.isSome = true →
      (handler incoming o).executed =
        [Step.loadArnMap, Step.increment, Step.status] ∧
      (handler incoming o).chainAttempted = true) ∧
    (o.loadError = none → o.incrementError = none → o.statusError = none →
      o.redundancyError.isSome = true →
      (handler incoming o).executed =
        [Step.loadArnMap, Step.increment, Step.status, Step.redundancy] ∧
      (handler incoming o).chainAttempted = true) ∧
    (o.loadError = none → o.incrementError = none → o.statusError = none →
      o.redundancyError = none → o.dispatchError.isSome = true →
      (handler incoming o).executed =
        [Step.loadArnMap, Step.increment, Step.status, Step.redundancy,
          Step.dispatch] ∧
      (handler incoming o).chainAttempted = true) ∧
    (o.loadError = none → o.incrementError = none → o.statusError = none →
      o.redundancyError = none → o.dispatchError = none →
      o.decrementError.isSome = true →
      (handler incoming o).executed =
        [Step.loadArnMap, Step.increment, Step.status, Step.redundancy,
          Step.dispatch, Step.sleep, Step.decrement] ∧
      (handler incoming o).chainAttempted = true) := by
  refine ⟨?_, ?_, ?_, ?_, ?_, ?_, ?_⟩
  · intro e he
    simp [handler, he]
  · intro h
    simp only [handler, h]
    split <;> rfl
  · intro h hi
    cases hinc : o.incrementError with
    | none => rw [hinc] at hi; cases hi
    | some e => simp [handler, h, seriesTasks, runSeries, hinc]
  · intro h h1 hi
    cases hst : o.statusError with
    | none => rw [hst] at hi; cases hi
    | some e => simp [handler, h, seriesTasks, runSeries, h1, hst]
  · intro h h1 h2 hi
    cases hrd : o.redundancyError with
    | none => rw [hrd] at hi; cases hi
    | some e => simp [handler, h, seriesTasks, runSeries, h1, h2, hrd]
  · intro h h1 h2 h3 hi
    cases hdp : o.dispatchError with
    | none => rw [hdp] at hi; cases hi
    | some e => simp [handler, h, seriesTasks, runSeries, h1, h2, h3, hdp]
  · intro h h1 h2 h3 h4 hi
    cases hdc : o.decrementError with
    | none => rw [hdc] at hi; cases hi
    | some e => simp [handler, h, seriesTasks, runSeries, h1, h2, h3, h4, hdc]

/-- C4 witness: the amended claim applied to concrete outcomes, once with
the increment step failing and once with the dispatch step failing,
discharging the hypotheses of the corresponding conjuncts. -/
theorem pipeline_error_propagation_witness :
    ((handler (some 1) incrementFailureOutcomes).executed =
      [Step.loadArnMap, Step.increment] ∧
    (handler (some 1) incrementFailureOutcomes).chainAttempted = true) ∧
    ((handler (some 1) dispatchFailureOutcomes).executed =
      [Step.loadArnMap, Step.increment, Step.status, Step.redundancy,
        Step.dispatch] ∧
    (handler (some 1) dispatchFailureOutcomes).chainAttempted = true) :=
  ⟨(pipeline_error_propagation (some 1) incrementFailureOutcomes).2.2.1
      rfl rfl,
    (pipeline_error_propagation (some 1) dispatchFailureOutcomes).2.2.2.2.2.1
      rfl rfl rfl rfl rfl⟩

-- ---------------------------------------------------------------------------
-- Claim C5: generation tracking along the coordinator chain.
-- ---------------------------------------------------------------------------

/-- C5.  The event passed to the chained coordinator invocation carries
generation incoming + 1, with a missing incoming generation treated as 0
(and a zero incoming generation handled identically, as both are falsy for
the JS default), so a chain started without a generation is observed with
generations 1, 2, 3 and so on. -/
theorem chained_generation {E : Type} (incoming : Option Nat)
    (o : CoordinatorOutcomes E) :
    ((handler incoming o).chainedGeneration =
      if o.loadError.isSome then none
      else some (processedGeneration incoming)) ∧
    processedGeneration incoming = incoming.getD 0 + 1 ∧
    processedGeneration none = processedGeneration (some 0) ∧
    (∀ k, observedGeneration k = k + 1) := by
  refine ⟨?_, rfl, rfl, ?_⟩
  · cases hload : o.loadError with
    | some e => simp [handler, hload]
    | none =>
      simp only [handler, hload, Option.isSome_none, Bool.false_eq_true,
        if_false]
      split <;> rfl
  · intro k
    induction k with
    | zero => rfl
    | succ k ih => simp [observedGeneration, ih]

-- ---------------------------------------------------------------------------
-- Claim C6: the confirmation artifact upload condition.
-- ---------------------------------------------------------------------------

/-- C6.  The coordinator uploads the application confirmation file exactly
when the processed generation is 1 and no error occurred anywhere: the ARN
map loaded, the series pipeline ran without error, and the chain invocation
succeeded.  A coordinator whose processed generation exceeds 1 never
uploads it. -/
theorem confirmation_upload_iff {E : Type} (incoming : Option Nat)
    (o : CoordinatorOutcomes E) :
    ((handler incoming o).confirmationUploaded = true ↔
      (processedGeneration incoming = 1 ∧ o.loadError = none ∧
        (runSeries (seriesTasks o)).2 = none ∧ o.invokeError = none)) ∧
    (1 < processedGeneration incoming →
      (handler incoming o).confirmationUploaded = false) := by
  cases hload : o.loadError with
  | some e => simp [handler, hload]
  | none =>
    cases hs : (runSeries (seriesTasks o)).2 with
    | some e =>
      constructor
      · simp [handler, hload, hs]
      · intro hgen
        simp [handler, hload, hs]
    | none =>
      cases hi : o.invokeError with
      | some e =>
        constructor
        · simp [handler, hload, hs, hi]
        · intro hgen
          simp [handler, hload, hs, hi]
      | none =>
        by_cases hgen : 1 < processedGeneration incoming
        · have hfalse : (handler incoming o).confirmationUploaded = false := by
            simp [handler, hload, hs, hi, hgen]
          refine ⟨?_, fun _ => hfalse⟩
          rw [hfalse]
          simp only [Bool.false_eq_true, false_iff]
          intro hcontra
          have hone := hcontra.1
          omega
        · have htrue : (handler incoming o).confirmationUploaded = true := by
            simp [handler, hload, hs, hi, hgen]
          refine ⟨?_, fun hg => absurd hg hgen⟩
          rw [htrue]
          simp only [true_iff]
          refine ⟨by simp only [processedGeneration] at hgen ⊢; omega, ?_, ?_, ?_⟩ <;> simp

/-- C6 witness: at processed generation 2 with every operation succeeding,
the confirmation file is not uploaded. -/
theorem confirmation_upload_iff_witness :
    1 < processedGeneration (some 1) ∧
    (handler (some 1) cleanOutcomes).confirmationUploaded = false :=
  ⟨by decide, (confirmation_upload_iff (some 1) cleanOutcomes).2 (by decide)⟩

-- ---------------------------------------------------------------------------
-- Claim C1: the wrapped lifecycle context finalizes exactly once.
-- ---------------------------------------------------------------------------

theorem runLifecycleCalls_of_complete {A : Type} (calls : List (LifecycleCall A))
    (s : WrapperState A) (h : s.complete = true) :
    runLifecycleCalls s calls = s := by
  induction calls with
  | nil => rfl
  | cons c rest ih =>
    show runLifecycleCalls (handleLifecycleCall s c) rest = s
    rw [handleLifecycleCall, if_pos h, ih]

/-- C1.  For every sequence of calls to the wrapped lifecycle context's
completion channels, finalization runs exactly once when there is at least
one call, receiving the mode and arguments of the first call, and every
subsequent call is silently ignored: the log of finalization runs is
exactly the one-element prefix of the call sequence. -/
theorem finalization_runs_once {A : Type} (calls : List (LifecycleCall A)) :
    (runLifecycleCalls initialWrapperState calls).finalized = calls.take 1 := by
  cases calls with
  | nil => rfl
  | cons c rest =>
    show (runLifecycleCalls (handleLifecycleCall initialWrapperState c) rest).finalized = _
    rw [handleLifecycleCall, initialWrapperState]
    simp only [Bool.false_eq_true, if_false, List.nil_append]
    rw [runLifecycleCalls_of_complete rest _ rfl]
    rfl

-- ---------------------------------------------------------------------------
-- Claim C7: routing on a worker error.
-- ---------------------------------------------------------------------------

/-- C7.  When the worker outcome carries an error, single-name and
list-of-names routing dispatch nothing; expression routing is still
evaluated with the error, and exactly its well-formed entries, those with
a non-empty target, are dispatched. -/
theorem routing_on_error {E A : Type} (e : E) (result : A) (name : String)
    (names : List String) (f : Option E → A → RawRouteValue A) :
    routeTargets (Routing.single name) (some e) result = [] ∧
    routeTargets (Routing.nameList names) (some e) result = [] ∧
    (∀ target payload,
      (target, payload) ∈ routeTargets (Routing.expression f) (some e) result ↔
        (RawRouteEntry.entry target payload ∈ rawRouteList (f (some e) result) ∧
          target ≠ "")) := by
  refine ⟨rfl, rfl, ?_⟩
  intro target payload
  simp only [routeTargets, List.mem_filterMap]
  constructor
  · rintro ⟨raw, hraw, hval⟩
    cases raw with
    | entry t p =>
      by_cases ht : t = ""
      · simp [validRouteEntry, ht] at hval
      · simp only [validRouteEntry, if_neg ht, Option.some_inj] at hval
        obtain ⟨rfl, rfl⟩ := Prod.mk.injEq .. ▸ hval
        exact ⟨hraw, ht⟩
    | malformed => simp [validRouteEntry] at hval
  · rintro ⟨hmem, hne⟩
    exact ⟨RawRouteEntry.entry target payload, hmem,
      by simp [validRouteEntry, hne]⟩

-- ---------------------------------------------------------------------------
-- Claim C10: splitInvocationCounts does not mutate its argument.
-- ---------------------------------------------------------------------------

theorem take_set_of_le {α : Type} (l : List α) (i : Nat) (x : α) (n : Nat)
    (h : n ≤ i) : (l.set i x).take n = l.take n := by
  induction l generalizing i n with
  | nil => simp
  | cons a t ih =>
    cases i with
    | zero =>
      have hn : n = 0 := Nat.le_zero.mp h
      subst hn
      simp
    | succ i =>
      cases n with
      | zero => simp
      | succ n =>
        rw [List.set_cons_succ, List.take_succ_cons, List.take_succ_cons,
          ih i n (Nat.le_of_succ_le_succ h)]

theorem pullCountsStore_frame (n : Nat) (addrs : List Nat) :
    ∀ (store : CountStore) (space : Nat),
      n ≤ store.length → (∀ a ∈ addrs, n ≤ a) →
      (pullCountsStore space store addrs).1.take n = store.take n ∧
      store.length ≤ (pullCountsStore space store addrs).1.length ∧
      (∀ a ∈ (pullCountsStore space store addrs).2.1, a ∈ addrs) := by
  induction addrs with
  | nil =>
    intro store space h1 h2
    simp [pullCountsStore]
  | cons a rest ih =>
    intro store space h1 h2
    by_cases h0 : space = 0
    · simp [pullCountsStore, h0]
    · simp only [pullCountsStore, if_neg h0]
      by_cases hbig : (readCount store a).2 > space
      · simp only [if_pos hbig]
        refine ⟨?_, ?_, fun b hb => hb⟩
        · rw [List.take_append_of_le_length
            (by rw [List.length_set]; exact h1)]
          exact take_set_of_le store a _ n (h2 a (List.mem_cons_self a rest))
        · rw [List.length_append, List.length_set]
          omega
      · simp only [if_neg hbig]
        obtain ⟨ht, hl, hs⟩ := ih store (space - (readCount store a).2) h1
          (fun b hb => h2 b (List.mem_cons_of_mem a hb))
        exact ⟨ht, hl, fun b hb => List.mem_cons_of_mem a (hs b hb)⟩

theorem pullCountsLoopStore_frame (maxInvocationCount n : Nat) :
    ∀ (fuel : Nat) (store : CountStore) (addrs : List Nat)
      (bins : List (List Nat)),
      n ≤ store.length → (∀ a ∈ addrs, n ≤ a) →
      (pullCountsLoopStore maxInvocationCount fuel store addrs bins).1.take n =
        store.take n := by
  intro fuel
  induction fuel with
  | zero =>
    intro store addrs bins h1 h2
    simp [pullCountsLoopStore]
  | succ fuel ih =>
    intro store addrs bins h1 h2
    obtain ⟨ht, hl, hs⟩ :=
      pullCountsStore_frame n addrs store maxInvocationCount h1 h2
    simp only [pullCountsLoopStore]
    split
    · rw [ih (pullCountsStore maxInvocationCount store addrs).1
        (pullCountsStore maxInvocationCount store addrs).2.1 _
        (Nat.le_trans h1 hl) (fun a ha => h2 a (hs a ha))]
      exact ht
    · exact ht

/-- C10.  At the store level, splitInvocationCountsStore leaves every cell
of the caller's store unchanged: the prefix of the final store covering all
pre-existing cells, and in particular every cell the argument addresses,
is exactly the original store, because the function operates on the deep
clone it appends.  The caller's address list itself is a pure value and the
JS rebinds only its own local variable, so the caller's array is untouched
as well. -/
theorem split_does_not_mutate_argument (maxInvocationCount : Nat)
    (store : CountStore) (addrs : List Nat) :
    ((splitInvocationCountsStore maxInvocationCount store addrs).1).take
      store.length = store := by
  have hclone : (store ++ addrs.map (readCount store)).take store.length =
      store := List.take_left store _
  have haddrs : ∀ a ∈ ((List.range addrs.length).map
      (fun i => store.length + i)).reverse, store.length ≤ a := by
    intro a ha
    rw [List.mem_reverse] at ha
    simp only [List.mem_map, List.mem_range] at ha
    obtain ⟨i, _, rfl⟩ := ha
    omega
  have hlen : store.length ≤ (store ++ addrs.map (readCount store)).length := by
    rw [List.length_append]
    omega
  have hloop := pullCountsLoopStore_frame maxInvocationCount store.length
    (maxInvocationCount + 1) (store ++ addrs.map (readCount store))
    (((List.range addrs.length).map (fun i => store.length + i)).reverse) []
    hlen haddrs
  simp only [splitInvocationCountsStore]
  split
  · exact hclone
  · split
    · exact hloop.trans hclone
    · exact hloop.trans hclone
